import Mathlib

/-!
Shallow embedding of the two-stage tokenizer (backtrackable character
stream, low-level scanner, high-level tokenizer) of the auto-assign
action.  JavaScript strings are modelled as `List Char` of code points;
runtime failures (the pushback assertion in
`BackableStringIterator.back`, reading a destroyed stream, calling a
string method on `null`) are modelled by `Option`: `none` is the failing
run.  Stateful generators become explicit state passing.
-/

/-- The backtrackable character stream: `iter` is the not-yet-consumed
suffix of the underlying string iterator, `prevCache` the one-slot cache
of the most recently yielded character, `prev` the pushed-back character
awaiting replay. -/
structure BackableStringIterator where
  iter : List Char
  prevCache : Option Char
  prev : Option Char
deriving DecidableEq, Repr

/-- Constructor: `new BackableStringIterator(str)`. -/
def BackableStringIterator.fromString (str : String) : BackableStringIterator :=
  ⟨str.data, none, none⟩

/-- `next()`: replay the pushed-back character if one is buffered,
otherwise advance the underlying iterator.  Returns `(none, s)` for the
done case, `(some c, s)` when a character is produced. -/
def BackableStringIterator.next (s : BackableStringIterator) :
    Option Char × BackableStringIterator :=
  match s.prev with
  | some p => (some p, ⟨s.iter, some p, none⟩)
  | none =>
    match s.iter with
    | [] => (none, ⟨[], none, none⟩)
    | c :: rest => (some c, ⟨rest, some c, none⟩)

/-- `back()`: `assert.notStrictEqual(this._prevCache, null)` then move the
cache into the replay slot.  `none` models the assertion firing. -/
def BackableStringIterator.back (s : BackableStringIterator) :
    Option BackableStringIterator :=
  match s.prevCache with
  | none => none
  | some p => some ⟨s.iter, none, some p⟩

/-- Termination measure: characters still obtainable from the stream. -/
def BackableStringIterator.size (s : BackableStringIterator) : Nat :=
  s.iter.length + (if s.prev.isSome then 1 else 0)

theorem BackableStringIterator.next_some_size {s s' : BackableStringIterator}
    {c : Char} (h : s.next = (some c, s')) : s'.size < s.size := by
  unfold BackableStringIterator.next at h
  rcases s with ⟨iter, pc, prev⟩
  cases prev with
  | some p =>
    simp only at h
    cases h
    simp [BackableStringIterator.size]
  | none =>
    cases iter with
    | nil => simp at h
    | cons c0 rest =>
      simp only at h
      cases h
      simp [BackableStringIterator.size]

theorem BackableStringIterator.next_some_prevCache {s s' : BackableStringIterator}
    {c : Char} (h : s.next = (some c, s')) : s'.prevCache = some c := by
  unfold BackableStringIterator.next at h
  rcases s with ⟨iter, pc, prev⟩
  cases prev with
  | some p => cases h; rfl
  | none =>
    cases iter with
    | nil => simp at h
    | cons c0 rest => cases h; rfl

theorem BackableStringIterator.back_size {s s' : BackableStringIterator}
    (h : s.back = some s') : s'.size ≤ s.size + 1 := by
  unfold BackableStringIterator.back at h
  rcases s with ⟨iter, pc, prev⟩
  cases pc with
  | none => simp at h
  | some p =>
    cases h
    cases prev <;> simp [BackableStringIterator.size]

theorem BackableStringIterator.next_none_size {s s' : BackableStringIterator}
    (h : s.next = (none, s')) : s'.size ≤ s.size := by
  unfold BackableStringIterator.next at h
  rcases s with ⟨iter, pc, prev⟩
  cases prev with
  | some p => simp at h
  | none =>
    cases iter with
    | nil => cases h; simp [BackableStringIterator.size]
    | cons c0 rest => simp at h

/-- `LowLevelTokenType` enumeration. -/
inductive LowLevelTokenType where
  | WhiteSpace
  | Eof
  | Identifier
  | Operator
  | Invalid
deriving DecidableEq, Repr

/-- A low-level token: immutable `(type, value)` pair, `value` null for Eof. -/
structure LowLevelToken where
  type : LowLevelTokenType
  value : Option String
deriving DecidableEq, Repr

/-- `isWhiteSpace`: the JavaScript regular expression class matched by
/\s/u, listed by code point. -/
def isWhiteSpace (c : Char) : Bool :=
  (9 ≤ c.toNat && c.toNat ≤ 13) || c.toNat = 32 || c.toNat = 160 ||
  c.toNat = 0x1680 || (0x2000 ≤ c.toNat && c.toNat ≤ 0x200a) ||
  c.toNat = 0x2028 || c.toNat = 0x2029 || c.toNat = 0x202f ||
  c.toNat = 0x205f || c.toNat = 0x3000 || c.toNat = 0xfeff

/-- `isOperatorFragment`: the character is one half of a two-character
operator. -/
def isOperatorFragment (c : Char) : Bool :=
  (c = '|') || (c = '&')

/-- The loop of `LowLevelScanner._scanWhiteSpace`: greedily append
whitespace characters to `buffer`; a non-whitespace character is pushed
back; `none` models the pushback assertion firing. -/
def scanWhiteSpaceLoop (buffer : String) (s : BackableStringIterator) :
    Option (LowLevelToken × BackableStringIterator) :=
  match h : s.next with
  | (none, s1) => some (⟨.WhiteSpace, some buffer⟩, s1)
  | (some v, s1) =>
    if isWhiteSpace v then
      scanWhiteSpaceLoop (buffer.push v) s1
    else
      match s1.back with
      | none => none
      | some s2 => some (⟨.WhiteSpace, some buffer⟩, s2)
termination_by s.size
decreasing_by exact BackableStringIterator.next_some_size h

/-- `LowLevelScanner._scanWhiteSpace`, with the initial character. -/
def scanWhiteSpace (char : Char) (s : BackableStringIterator) :
    Option (LowLevelToken × BackableStringIterator) :=
  scanWhiteSpaceLoop (String.singleton char) s

/-- The loop of `LowLevelScanner._scanIdentifier`: absorb every
character until whitespace (pushed back) or end of input; only
whitespace terminates an identifier. -/
def scanIdentifierLoop (buffer : String) (s : BackableStringIterator) :
    Option (LowLevelToken × BackableStringIterator) :=
  match h : s.next with
  | (none, s1) => some (⟨.Identifier, some buffer⟩, s1)
  | (some v, s1) =>
    if isWhiteSpace v then
      match s1.back with
      | none => none
      | some s2 => some (⟨.Identifier, some buffer⟩, s2)
    else
      scanIdentifierLoop (buffer.push v) s1
termination_by s.size
decreasing_by exact BackableStringIterator.next_some_size h

/-- `LowLevelScanner._scanIdentifier`, with the initial character. -/
def scanIdentifier (char : Char) (s : BackableStringIterator) :
    Option (LowLevelToken × BackableStringIterator) :=
  scanIdentifierLoop (String.singleton char) s

/-- `LowLevelScanner._scanOperator`: one character of lookahead decides
between `Operator` (`||` or `&&`), `Invalid` with pushback (differing
fragment), and `Invalid` with the lookahead discarded. -/
def scanOperator (char : Char) (s : BackableStringIterator) :
    Option (LowLevelToken × BackableStringIterator) :=
  let buffer := String.singleton char
  match s.next with
  | (none, s1) => some (⟨.Invalid, some buffer⟩, s1)
  | (some v, s1) =>
    if isOperatorFragment v = false then
      some (⟨.Invalid, some buffer⟩, s1)
    else if char ≠ v then
      match s1.back with
      | none => none
      | some s2 => some (⟨.Invalid, some buffer⟩, s2)
    else
      some (⟨.Operator, some (buffer.push v)⟩, s1)

/-- `LowLevelScanner._scan`: read one character, classify, dispatch. -/
def scan (s : BackableStringIterator) :
    Option (LowLevelToken × BackableStringIterator) :=
  match s.next with
  | (none, s1) => some (⟨.Eof, none⟩, s1)
  | (some char, s1) =>
    if isWhiteSpace char then
      scanWhiteSpace char s1
    else if isOperatorFragment char then
      scanOperator char s1
    else
      scanIdentifier char s1

theorem scanWhiteSpaceLoop_done {s s1 : BackableStringIterator} (buffer : String)
    (h : s.next = (none, s1)) :
    scanWhiteSpaceLoop buffer s = some (⟨.WhiteSpace, some buffer⟩, s1) := by
  rw [scanWhiteSpaceLoop]
  split
  next s1' heq =>
    rw [h] at heq
    cases heq
    rfl
  next v s1' heq =>
    rw [h] at heq
    cases heq

theorem scanWhiteSpaceLoop_cont {s s1 : BackableStringIterator} (buffer : String)
    {v : Char} (h : s.next = (some v, s1)) (hv : isWhiteSpace v = true) :
    scanWhiteSpaceLoop buffer s = scanWhiteSpaceLoop (buffer.push v) s1 := by
  rw [scanWhiteSpaceLoop]
  split
  next s1' heq =>
    rw [h] at heq
    cases heq
  next v' s1' heq =>
    rw [h] at heq
    cases heq
    rw [if_pos hv]

theorem scanWhiteSpaceLoop_stop {s s1 : BackableStringIterator} (buffer : String)
    {v : Char} (h : s.next = (some v, s1)) (hv : isWhiteSpace v = false) :
    scanWhiteSpaceLoop buffer s =
      match s1.back with
      | none => none
      | some s2 => some (⟨.WhiteSpace, some buffer⟩, s2) := by
  rw [scanWhiteSpaceLoop]
  split
  next s1' heq =>
    rw [h] at heq
    cases heq
  next v' s1' heq =>
    rw [h] at heq
    cases heq
    rw [if_neg (by simp [hv])]

theorem scanIdentifierLoop_done {s s1 : BackableStringIterator} (buffer : String)
    (h : s.next = (none, s1)) :
    scanIdentifierLoop buffer s = some (⟨.Identifier, some buffer⟩, s1) := by
  rw [scanIdentifierLoop]
  split
  next s1' heq =>
    rw [h] at heq
    cases heq
    rfl
  next v s1' heq =>
    rw [h] at heq
    cases heq

theorem scanIdentifierLoop_cont {s s1 : BackableStringIterator} (buffer : String)
    {v : Char} (h : s.next = (some v, s1)) (hv : isWhiteSpace v = false) :
    scanIdentifierLoop buffer s = scanIdentifierLoop (buffer.push v) s1 := by
  rw [scanIdentifierLoop]
  split
  next s1' heq =>
    rw [h] at heq
    cases heq
  next v' s1' heq =>
    rw [h] at heq
    cases heq
    rw [if_neg (by simp [hv])]

theorem scanIdentifierLoop_stop {s s1 : BackableStringIterator} (buffer : String)
    {v : Char} (h : s.next = (some v, s1)) (hv : isWhiteSpace v = true) :
    scanIdentifierLoop buffer s =
      match s1.back with
      | none => none
      | some s2 => some (⟨.Identifier, some buffer⟩, s2) := by
  rw [scanIdentifierLoop]
  split
  next s1' heq =>
    rw [h] at heq
    cases heq
  next v' s1' heq =>
    rw [h] at heq
    cases heq
    rw [if_pos hv]

theorem scanWhiteSpaceLoopAux (n : Nat) :
    ∀ (buffer : String) (s : BackableStringIterator), s.size ≤ n →
      ∃ b s', scanWhiteSpaceLoop buffer s = some (⟨.WhiteSpace, some b⟩, s') ∧
        s'.size ≤ s.size := by
  induction n with
  | zero =>
    intro buffer s hn
    match h : s.next with
    | (none, s1) =>
      rw [scanWhiteSpaceLoop_done buffer h]
      exact ⟨buffer, s1, rfl, BackableStringIterator.next_none_size h⟩
    | (some v, s1) =>
      have := BackableStringIterator.next_some_size h
      omega
  | succ n ih =>
    intro buffer s hn
    match h : s.next with
    | (none, s1) =>
      rw [scanWhiteSpaceLoop_done buffer h]
      exact ⟨buffer, s1, rfl, BackableStringIterator.next_none_size h⟩
    | (some v, s1) =>
      have hlt := BackableStringIterator.next_some_size h
      have hpc := BackableStringIterator.next_some_prevCache h
      cases hv : isWhiteSpace v with
      | true =>
        rw [scanWhiteSpaceLoop_cont buffer h hv]
        obtain ⟨b, s', heq, hs⟩ := ih (buffer.push v) s1 (by omega)
        exact ⟨b, s', heq, by omega⟩
      | false =>
        rw [scanWhiteSpaceLoop_stop buffer h hv]
        rw [BackableStringIterator.back, hpc]
        refine ⟨buffer, _, rfl, ?_⟩
        have : (⟨s1.iter, none, some v⟩ : BackableStringIterator).size ≤ s1.size + 1 :=
          BackableStringIterator.back_size (by rw [BackableStringIterator.back, hpc])
        omega

theorem scanIdentifierLoopAux (n : Nat) :
    ∀ (buffer : String) (s : BackableStringIterator), s.size ≤ n →
      ∃ b s', scanIdentifierLoop buffer s = some (⟨.Identifier, some b⟩, s') ∧
        s'.size ≤ s.size := by
  induction n with
  | zero =>
    intro buffer s hn
    match h : s.next with
    | (none, s1) =>
      rw [scanIdentifierLoop_done buffer h]
      exact ⟨buffer, s1, rfl, BackableStringIterator.next_none_size h⟩
    | (some v, s1) =>
      have := BackableStringIterator.next_some_size h
      omega
  | succ n ih =>
    intro buffer s hn
    match h : s.next with
    | (none, s1) =>
      rw [scanIdentifierLoop_done buffer h]
      exact ⟨buffer, s1, rfl, BackableStringIterator.next_none_size h⟩
    | (some v, s1) =>
      have hlt := BackableStringIterator.next_some_size h
      have hpc := BackableStringIterator.next_some_prevCache h
      cases hv : isWhiteSpace v with
      | false =>
        rw [scanIdentifierLoop_cont buffer h hv]
        obtain ⟨b, s', heq, hs⟩ := ih (buffer.push v) s1 (by omega)
        exact ⟨b, s', heq, by omega⟩
      | true =>
        rw [scanIdentifierLoop_stop buffer h hv]
        rw [BackableStringIterator.back, hpc]
        refine ⟨buffer, _, rfl, ?_⟩
        have : (⟨s1.iter, none, some v⟩ : BackableStringIterator).size ≤ s1.size + 1 :=
          BackableStringIterator.back_size (by rw [BackableStringIterator.back, hpc])
        omega

theorem scanOperator_spec (char : Char) (s : BackableStringIterator) :
    ∃ ty b s', scanOperator char s = some (⟨ty, some b⟩, s') ∧
      (ty = LowLevelTokenType.Operator ∨ ty = LowLevelTokenType.Invalid) ∧
      s'.size ≤ s.size := by
  rw [scanOperator]
  match h : s.next with
  | (none, s1) =>
    exact ⟨.Invalid, _, s1, rfl, Or.inr rfl, BackableStringIterator.next_none_size h⟩
  | (some v, s1) =>
    dsimp only
    have hpc := BackableStringIterator.next_some_prevCache h
    have hlt := BackableStringIterator.next_some_size h
    cases hv : isOperatorFragment v with
    | false =>
      rw [if_pos rfl]
      exact ⟨.Invalid, _, s1, rfl, Or.inr rfl, le_of_lt hlt⟩
    | true =>
      rw [if_neg (show ¬(true = false) by decide)]
      by_cases hne : char = v
      · rw [if_neg (by simp [hne])]
        exact ⟨.Operator, _, s1, rfl, Or.inl rfl, le_of_lt hlt⟩
      · rw [if_pos hne]
        rw [BackableStringIterator.back, hpc]
        refine ⟨.Invalid, _, _, rfl, Or.inr rfl, ?_⟩
        have : (⟨s1.iter, none, some v⟩ : BackableStringIterator).size ≤ s1.size + 1 :=
          BackableStringIterator.back_size (by rw [BackableStringIterator.back, hpc])
        omega

/-- Every call of `_scan` succeeds; a non-Eof token carries a string
value and strictly consumes input. -/
theorem scan_spec (s : BackableStringIterator) :
    ∃ t s', scan s = some (t, s') ∧
      (t.type = LowLevelTokenType.Eof ∨ (t.value.isSome ∧ s'.size < s.size)) := by
  rw [scan]
  match h : s.next with
  | (none, s1) => exact ⟨_, s1, rfl, Or.inl rfl⟩
  | (some char, s1) =>
    dsimp only
    have hlt := BackableStringIterator.next_some_size h
    cases hw : isWhiteSpace char with
    | true =>
      rw [if_pos rfl]
      obtain ⟨b, s', heq, hs⟩ :=
        scanWhiteSpaceLoopAux s1.size (String.singleton char) s1 (le_refl _)
      rw [scanWhiteSpace]
      exact ⟨_, s', heq, Or.inr ⟨rfl, by omega⟩⟩
    | false =>
      rw [if_neg (show ¬(false = true) by decide)]
      cases ho : isOperatorFragment char with
      | true =>
        rw [if_pos rfl]
        obtain ⟨ty, b, s', heq, _, hs⟩ := scanOperator_spec char s1
        exact ⟨_, s', heq, Or.inr ⟨rfl, by omega⟩⟩
      | false =>
        rw [if_neg (show ¬(false = true) by decide)]
        obtain ⟨b, s', heq, hs⟩ :=
          scanIdentifierLoopAux s1.size (String.singleton char) s1 (le_refl _)
        rw [scanIdentifier]
        exact ⟨_, s', heq, Or.inr ⟨rfl, by omega⟩⟩

/-- The low-level scanner: `_sourceIter` becomes `none` after
`_destroy()` nulls it out; `_hasReachedEof` closes the scanner. -/
structure LowLevelScanner where
  sourceIter : Option BackableStringIterator
  hasReachedEof : Bool
deriving DecidableEq, Repr

/-- Constructor: `new LowLevelScanner(source)`. -/
def LowLevelScanner.fromString (source : String) : LowLevelScanner :=
  ⟨some (BackableStringIterator.fromString source), false⟩

/-- Termination measure for driving the scanner. -/
def LowLevelScanner.size (sc : LowLevelScanner) : Nat :=
  match sc.sourceIter with
  | none => 0
  | some it => it.size + 1

/-- `LowLevelScanner.next()`: report done once closed, otherwise scan;
an Eof token destroys the scanner (`_destroy` nulls the stream and sets
the flag) but the Eof token itself is still yielded with done = false.
The outer `Option` models runtime failure (the pushback assertion, or a
scan on the nulled stream). -/
def LowLevelScanner.next (sc : LowLevelScanner) :
    Option (Option LowLevelToken × LowLevelScanner) :=
  if sc.hasReachedEof then some (none, sc)
  else
    match sc.sourceIter with
    | none => none
    | some it =>
      match scan it with
      | none => none
      | some (t, it1) =>
        if t.type = LowLevelTokenType.Eof then some (some t, ⟨none, true⟩)
        else some (some t, ⟨some it1, sc.hasReachedEof⟩)

/-- A yielded non-Eof token strictly shrinks the measure and carries a
string value. -/
theorem LowLevelScanner.next_yield {sc sc1 : LowLevelScanner} {t : LowLevelToken}
    (h : sc.next = some (some t, sc1)) (ht : t.type ≠ LowLevelTokenType.Eof) :
    sc1.size < sc.size ∧ t.value.isSome = true := by
  rw [LowLevelScanner.next] at h
  by_cases he : sc.hasReachedEof
  · rw [if_pos he] at h
    cases h
  · rw [if_neg he] at h
    match hit : sc.sourceIter with
    | none => rw [hit] at h; cases h
    | some it =>
      rw [hit] at h
      dsimp only at h
      obtain ⟨t0, s0, heq, hd⟩ := scan_spec it
      rw [heq] at h
      dsimp only at h
      by_cases hT : t0.type = LowLevelTokenType.Eof
      · rw [if_pos hT] at h
        cases h
        exact absurd hT ht
      · rw [if_neg hT] at h
        cases h
        rcases hd with hd | ⟨hv, hs⟩
        · exact absurd hd ht
        · constructor
          · simp only [LowLevelScanner.size, hit]
            omega
          · exact hv

/-- `TokenType` enumeration of semantic tokens. -/
inductive TokenType where
  | Directive
  | AcceptPullRequest
  | RejectPullRequest
  | AssignReviewer
  | UserName
  | Unknown
  | Eof
deriving DecidableEq, Repr

/-- A high-level (semantic) token. -/
structure HighLevelToken where
  type : TokenType
  value : Option String
deriving DecidableEq, Repr

/-- `value.startsWith('@')`: the first code point is the `@` sigil. -/
def startsWithAtSign (value : String) : Bool :=
  match value.data with
  | [] => false
  | c :: _ => c = '@'

/-- `value.replace(/^@/u, '')`: remove the match of the anchored
regular expression, i.e. exactly one leading `@` when present. -/
def stripAtSign (value : String) : String :=
  match value.data with
  | '@' :: rest => String.mk rest
  | _ => value

/-- `createHighLevelToken`: the generator's full yield sequence as a
list.  The JavaScript switch on `token.value` compares against the
string literals in order; the default branch tests
`value.startsWith('@')` and strips the sigil with
`value.replace(/^@/u, '')`.  A `null` value (only Eof tokens carry one)
would crash `value.startsWith` at runtime: `none`. -/
def createHighLevelToken (token : LowLevelToken) : Option (List HighLevelToken) :=
  match token.value with
  | none => none
  | some value =>
    if value = "r?" then
      some [⟨.Directive, none⟩, ⟨.AssignReviewer, none⟩]
    else if value = "r-" then
      some [⟨.Directive, none⟩, ⟨.RejectPullRequest, none⟩]
    else if value = "r+" then
      some [⟨.Directive, none⟩, ⟨.AcceptPullRequest, none⟩]
    else if startsWithAtSign value then
      some [⟨.UserName, some (stripAtSign value)⟩]
    else
      some [⟨.Unknown, none⟩]

/-- The `for (const token of tokenStream)` loop of `tokenizeHighLevel`:
whitespace, operator and invalid tokens are dropped, Eof returns, an
identifier contributes `createHighLevelToken`'s yields. -/
def tokenizeHighLevelLoop (sc : LowLevelScanner) : Option (List HighLevelToken) :=
  match h : sc.next with
  | none => none
  | some (none, _) => some []
  | some (some t, sc1) =>
    match h2 : t.type with
    | .WhiteSpace => tokenizeHighLevelLoop sc1
    | .Eof => some []
    | .Identifier =>
      match createHighLevelToken t with
      | none => none
      | some hts =>
        match tokenizeHighLevelLoop sc1 with
        | none => none
        | some rest => some (hts ++ rest)
    | .Operator => tokenizeHighLevelLoop sc1
    | .Invalid => tokenizeHighLevelLoop sc1
termination_by sc.size
decreasing_by
  all_goals exact (LowLevelScanner.next_yield h (by simp [h2])).1

/-- `tokenizeHighLevel`: drive a fresh scanner over the string. -/
def tokenizeHighLevel (string : String) : Option (List HighLevelToken) :=
  tokenizeHighLevelLoop (LowLevelScanner.fromString string)

/-- Fuel-indexed unfolding of `scanWhiteSpaceLoop`, agreeing with it
whenever the fuel exceeds the stream measure; structural recursion makes
it reducible by the kernel for concrete inputs. -/
def scanWhiteSpaceFuel : Nat → String → BackableStringIterator →
    Option (LowLevelToken × BackableStringIterator)
  | 0, _, _ => none
  | Nat.succ n, buffer, s =>
    match s.next with
    | (none, s1) => some (⟨.WhiteSpace, some buffer⟩, s1)
    | (some v, s1) =>
      if isWhiteSpace v then
        scanWhiteSpaceFuel n (buffer.push v) s1
      else
        match s1.back with
        | none => none
        | some s2 => some (⟨.WhiteSpace, some buffer⟩, s2)

/-- Fuel-indexed unfolding of `scanIdentifierLoop`. -/
def scanIdentifierFuel : Nat → String → BackableStringIterator →
    Option (LowLevelToken × BackableStringIterator)
  | 0, _, _ => none
  | Nat.succ n, buffer, s =>
    match s.next with
    | (none, s1) => some (⟨.Identifier, some buffer⟩, s1)
    | (some v, s1) =>
      if isWhiteSpace v then
        match s1.back with
        | none => none
        | some s2 => some (⟨.Identifier, some buffer⟩, s2)
      else
        scanIdentifierFuel n (buffer.push v) s1

theorem scanWhiteSpaceLoop_eq_fuel :
    ∀ (n : Nat) (buffer : String) (s : BackableStringIterator), s.size < n →
      scanWhiteSpaceLoop buffer s = scanWhiteSpaceFuel n buffer s := by
  intro n
  induction n with
  | zero => intro buffer s h; omega
  | succ n ih =>
    intro buffer s h
    match hn : s.next with
    | (none, s1) =>
      rw [scanWhiteSpaceLoop_done buffer hn]
      simp [scanWhiteSpaceFuel, hn]
    | (some v, s1) =>
      have hlt := BackableStringIterator.next_some_size hn
      cases hv : isWhiteSpace v with
      | true =>
        rw [scanWhiteSpaceLoop_cont buffer hn hv, ih (buffer.push v) s1 (by omega)]
        simp [scanWhiteSpaceFuel, hn, hv]
      | false =>
        rw [scanWhiteSpaceLoop_stop buffer hn hv]
        simp [scanWhiteSpaceFuel, hn, hv]

theorem scanIdentifierLoop_eq_fuel :
    ∀ (n : Nat) (buffer : String) (s : BackableStringIterator), s.size < n →
      scanIdentifierLoop buffer s = scanIdentifierFuel n buffer s := by
  intro n
  induction n with
  | zero => intro buffer s h; omega
  | succ n ih =>
    intro buffer s h
    match hn : s.next with
    | (none, s1) =>
      rw [scanIdentifierLoop_done buffer hn]
      simp [scanIdentifierFuel, hn]
    | (some v, s1) =>
      have hlt := BackableStringIterator.next_some_size hn
      cases hv : isWhiteSpace v with
      | false =>
        rw [scanIdentifierLoop_cont buffer hn hv, ih (buffer.push v) s1 (by omega)]
        simp [scanIdentifierFuel, hn, hv]
      | true =>
        rw [scanIdentifierLoop_stop buffer hn hv]
        simp [scanIdentifierFuel, hn, hv]

/-- Fuel-indexed unfolding of `scan`. -/
def scanFuel (n : Nat) (s : BackableStringIterator) :
    Option (LowLevelToken × BackableStringIterator) :=
  match s.next with
  | (none, s1) => some (⟨.Eof, none⟩, s1)
  | (some char, s1) =>
    if isWhiteSpace char then
      scanWhiteSpaceFuel n (String.singleton char) s1
    else if isOperatorFragment char then
      scanOperator char s1
    else
      scanIdentifierFuel n (String.singleton char) s1

theorem scan_eq_fuel (n : Nat) (s : BackableStringIterator) (h : s.size < n) :
    scan s = scanFuel n s := by
  rw [scan, scanFuel]
  match hn : s.next with
  | (none, s1) => rfl
  | (some char, s1) =>
    have hlt := BackableStringIterator.next_some_size hn
    dsimp only
    cases hw : isWhiteSpace char with
    | true =>
      rw [if_pos rfl, if_pos rfl, scanWhiteSpace,
        scanWhiteSpaceLoop_eq_fuel n (String.singleton char) s1 (by omega)]
    | false =>
      rw [if_neg (show ¬(false = true) by decide),
        if_neg (show ¬(false = true) by decide)]
      cases ho : isOperatorFragment char with
      | true => rw [if_pos rfl, if_pos rfl]
      | false =>
        rw [if_neg (show ¬(false = true) by decide),
          if_neg (show ¬(false = true) by decide), scanIdentifier,
          scanIdentifierLoop_eq_fuel n (String.singleton char) s1 (by omega)]

/-- Fuel-indexed unfolding of `LowLevelScanner.next`. -/
def LowLevelScanner.nextFuel (n : Nat) (sc : LowLevelScanner) :
    Option (Option LowLevelToken × LowLevelScanner) :=
  if sc.hasReachedEof then some (none, sc)
  else
    match sc.sourceIter with
    | none => none
    | some it =>
      match scanFuel n it with
      | none => none
      | some (t, it1) =>
        if t.type = LowLevelTokenType.Eof then some (some t, ⟨none, true⟩)
        else some (some t, ⟨some it1, sc.hasReachedEof⟩)

theorem LowLevelScanner.next_eq_fuel (n : Nat) (sc : LowLevelScanner)
    (h : sc.size ≤ n) : sc.next = sc.nextFuel n := by
  rw [LowLevelScanner.next, LowLevelScanner.nextFuel]
  by_cases he : sc.hasReachedEof
  · rw [if_pos he, if_pos he]
  · rw [if_neg he, if_neg he]
    match hit : sc.sourceIter with
    | none => rfl
    | some it =>
      dsimp only
      rw [scan_eq_fuel n it
        (by simp only [LowLevelScanner.size, hit] at h; omega)]

/-- Fuel-indexed unfolding of `tokenizeHighLevelLoop`, used to evaluate
the tokenizer inside proofs; it agrees with the loop whenever the fuel
exceeds the scanner measure (`tokenizeHighLevelLoop_eq_fuel`). -/
def tokenizeFuel : Nat → LowLevelScanner → Option (List HighLevelToken)
  | 0, _ => none
  | Nat.succ n, sc =>
    match sc.nextFuel (Nat.succ n) with
    | none => none
    | some (none, _) => some []
    | some (some t, sc1) =>
      match t.type with
      | .WhiteSpace => tokenizeFuel n sc1
      | .Eof => some []
      | .Identifier =>
        match createHighLevelToken t with
        | none => none
        | some hts =>
          match tokenizeFuel n sc1 with
          | none => none
          | some rest => some (hts ++ rest)
      | .Operator => tokenizeFuel n sc1
      | .Invalid => tokenizeFuel n sc1

theorem tokenizeHighLevelLoop_eq_fuel :
    ∀ (n : Nat) (sc : LowLevelScanner), sc.size < n →
      tokenizeHighLevelLoop sc = tokenizeFuel n sc := by
  intro n
  induction n with
  | zero => intro sc h; omega
  | succ n ih =>
    intro sc h
    have hfeq : sc.nextFuel (Nat.succ n) = sc.next :=
      (LowLevelScanner.next_eq_fuel (Nat.succ n) sc (by omega)).symm
    rw [tokenizeHighLevelLoop]
    split
    next heq => simp [tokenizeFuel, hfeq, heq]
    next x heq => simp [tokenizeFuel, hfeq, heq]
    next t sc1 heq =>
      have hyield := LowLevelScanner.next_yield heq
      split
      next hty =>
        rw [ih sc1 (by have := (hyield (by simp [hty])).1; omega)]
        simp [tokenizeFuel, hfeq, heq, hty]
      next hty =>
        simp [tokenizeFuel, hfeq, heq, hty]
      next hty =>
        rw [ih sc1 (by have := (hyield (by simp [hty])).1; omega)]
        simp [tokenizeFuel, hfeq, heq, hty]
      next hty =>
        rw [ih sc1 (by have := (hyield (by simp [hty])).1; omega)]
        simp [tokenizeFuel, hfeq, heq, hty]
      next hty =>
        rw [ih sc1 (by have := (hyield (by simp [hty])).1; omega)]
        simp [tokenizeFuel, hfeq, heq, hty]

theorem tokenizeHighLevel_eq_fuel (s : String) :
    tokenizeHighLevel s = tokenizeFuel (s.length + 2) (LowLevelScanner.fromString s) := by
  rw [tokenizeHighLevel]
  apply tokenizeHighLevelLoop_eq_fuel
  show s.data.length + 0 + 1 < s.length + 2
  have hlen : s.length = s.data.length := rfl
  omega

theorem tokenizeHighLevelLoop_yield {sc sc1 : LowLevelScanner} {t : LowLevelToken}
    (h : sc.next = some (some t, sc1)) :
    tokenizeHighLevelLoop sc =
      match t.type with
      | .WhiteSpace => tokenizeHighLevelLoop sc1
      | .Eof => some []
      | .Identifier =>
        match createHighLevelToken t with
        | none => none
        | some hts =>
          match tokenizeHighLevelLoop sc1 with
          | none => none
          | some rest => some (hts ++ rest)
      | .Operator => tokenizeHighLevelLoop sc1
      | .Invalid => tokenizeHighLevelLoop sc1 := by
  rw [tokenizeHighLevelLoop]
  split
  next heq =>
    rw [h] at heq
    cases heq
  next x heq =>
    rw [h] at heq
    cases heq
  next t' sc1' heq =>
    rw [h] at heq
    cases heq
    split
    next hty => rw [hty]
    next hty => rw [hty]
    next hty => rw [hty]
    next hty => rw [hty]
    next hty => rw [hty]

theorem tokenizeHighLevelLoop_done {sc sc1 : LowLevelScanner}
    (h : sc.next = some (none, sc1)) : tokenizeHighLevelLoop sc = some [] := by
  rw [tokenizeHighLevelLoop]
  split
  next heq =>
    rw [h] at heq
    cases heq
  next x heq => rfl
  next t' sc1' heq =>
    rw [h] at heq
    cases heq

/-- The scanner state is healthy: the stream is only gone once closed. -/
def LowLevelScanner.ok (sc : LowLevelScanner) : Prop :=
  sc.hasReachedEof = false → sc.sourceIter.isSome = true

theorem LowLevelScanner.next_ne_none {sc : LowLevelScanner} (hok : sc.ok) :
    sc.next ≠ none := by
  rw [LowLevelScanner.next]
  by_cases he : sc.hasReachedEof
  · rw [if_pos he]
    simp
  · rw [if_neg he]
    have hs := hok (by simpa using he)
    match hit : sc.sourceIter with
    | none => rw [hit] at hs; simp at hs
    | some it =>
      dsimp only
      obtain ⟨t, s', heq, _⟩ := scan_spec it
      rw [heq]
      dsimp only
      by_cases hT : t.type = LowLevelTokenType.Eof
      · rw [if_pos hT]; simp
      · rw [if_neg hT]; simp

theorem LowLevelScanner.next_preserves_ok {sc sc1 : LowLevelScanner}
    {t : LowLevelToken} (h : sc.next = some (some t, sc1)) : sc1.ok := by
  rw [LowLevelScanner.next] at h
  by_cases he : sc.hasReachedEof
  · rw [if_pos he] at h
    cases h
  · rw [if_neg he] at h
    match hit : sc.sourceIter with
    | none => rw [hit] at h; cases h
    | some it =>
      rw [hit] at h
      dsimp only at h
      match heq : scan it with
      | none => rw [heq] at h; cases h
      | some (u, it1) =>
        rw [heq] at h
        dsimp only at h
        by_cases hT : u.type = LowLevelTokenType.Eof
        · rw [if_pos hT] at h
          cases h
          intro hf
          cases hf
        · rw [if_neg hT] at h
          cases h
          intro _
          rfl

theorem createHighLevelToken_isSome {t : LowLevelToken}
    (h : t.value.isSome = true) : ∃ hts, createHighLevelToken t = some hts := by
  rw [createHighLevelToken]
  match hv : t.value with
  | none => rw [hv] at h; cases h
  | some value =>
    dsimp only
    by_cases h1 : value = "r?"
    · rw [if_pos h1]; exact ⟨_, rfl⟩
    · rw [if_neg h1]
      by_cases h2 : value = "r-"
      · rw [if_pos h2]; exact ⟨_, rfl⟩
      · rw [if_neg h2]
        by_cases h3 : value = "r+"
        · rw [if_pos h3]; exact ⟨_, rfl⟩
        · rw [if_neg h3]
          by_cases h4 : startsWithAtSign value
          · rw [if_pos h4]; exact ⟨_, rfl⟩
          · rw [if_neg h4]; exact ⟨_, rfl⟩

theorem tokenizeHighLevelLoop_total :
    ∀ (n : Nat) (sc : LowLevelScanner), sc.size < n → sc.ok →
      ∃ ts, tokenizeHighLevelLoop sc = some ts := by
  intro n
  induction n with
  | zero => intro sc h; omega
  | succ n ih =>
    intro sc h hok
    match hn : sc.next with
    | none => exact absurd hn (LowLevelScanner.next_ne_none hok)
    | some (none, sc1) => exact ⟨[], tokenizeHighLevelLoop_done hn⟩
    | some (some t, sc1) =>
      rw [tokenizeHighLevelLoop_yield hn]
      have hok1 := LowLevelScanner.next_preserves_ok hn
      match hty : t.type with
      | .Eof => exact ⟨[], rfl⟩
      | .WhiteSpace =>
        have hsz := (LowLevelScanner.next_yield hn (by simp [hty])).1
        exact ih sc1 (by omega) hok1
      | .Operator =>
        have hsz := (LowLevelScanner.next_yield hn (by simp [hty])).1
        exact ih sc1 (by omega) hok1
      | .Invalid =>
        have hsz := (LowLevelScanner.next_yield hn (by simp [hty])).1
        exact ih sc1 (by omega) hok1
      | .Identifier =>
        have hyield := LowLevelScanner.next_yield hn (by simp [hty])
        obtain ⟨hts, hct⟩ := createHighLevelToken_isSome hyield.2
        obtain ⟨rest, hrest⟩ := ih sc1 (by omega) hok1
        rw [hct, hrest]
        exact ⟨hts ++ rest, rfl⟩

/-- Tokenizing any string completes without hitting a failure branch. -/
theorem tokenizeHighLevel_total (s : String) :
    ∃ ts, tokenizeHighLevel s = some ts := by
  rw [tokenizeHighLevel]
  apply tokenizeHighLevelLoop_total ((LowLevelScanner.fromString s).size + 1)
  · omega
  · intro _
    rfl

/-- The pairing invariant on semantic token sequences: a Directive is
immediately followed by exactly one accept/reject/assign marker, those
three markers occur only right after a Directive, and Eof never occurs. -/
def pairedOk : List HighLevelToken → Bool
  | [] => true
  | t :: ts =>
    match t.type with
    | TokenType.Directive =>
      match ts with
      | [] => false
      | t2 :: ts2 =>
        match t2.type with
        | TokenType.AcceptPullRequest => pairedOk ts2
        | TokenType.RejectPullRequest => pairedOk ts2
        | TokenType.AssignReviewer => pairedOk ts2
        | _ => false
    | TokenType.AcceptPullRequest => false
    | TokenType.RejectPullRequest => false
    | TokenType.AssignReviewer => false
    | TokenType.Eof => false
    | TokenType.UserName => pairedOk ts
    | TokenType.Unknown => pairedOk ts

theorem createHighLevelToken_pairedOk {t : LowLevelToken}
    {hts : List HighLevelToken} (h : createHighLevelToken t = some hts)
    (rest : List HighLevelToken) : pairedOk (hts ++ rest) = pairedOk rest := by
  rw [createHighLevelToken] at h
  match hv : t.value with
  | none => rw [hv] at h; cases h
  | some value =>
    rw [hv] at h
    dsimp only at h
    by_cases h1 : value = "r?"
    · rw [if_pos h1] at h
      cases h
      rfl
    · rw [if_neg h1] at h
      by_cases h2 : value = "r-"
      · rw [if_pos h2] at h
        cases h
        rfl
      · rw [if_neg h2] at h
        by_cases h3 : value = "r+"
        · rw [if_pos h3] at h
          cases h
          rfl
        · rw [if_neg h3] at h
          by_cases h4 : startsWithAtSign value
          · rw [if_pos h4] at h
            cases h
            rfl
          · rw [if_neg h4] at h
            cases h
            rfl

theorem tokenizeFuel_pairedOk :
    ∀ (n : Nat) (sc : LowLevelScanner) (ts : List HighLevelToken),
      tokenizeFuel n sc = some ts → pairedOk ts = true := by
  intro n
  induction n with
  | zero => intro sc ts h; cases h
  | succ n ih =>
    intro sc ts h
    rw [tokenizeFuel] at h
    match hn : sc.nextFuel (Nat.succ n) with
    | none => rw [hn] at h; cases h
    | some (none, sc1) =>
      rw [hn] at h
      cases h
      rfl
    | some (some t, sc1) =>
      rw [hn] at h
      dsimp only at h
      match hty : t.type with
      | .WhiteSpace => rw [hty] at h; exact ih sc1 ts h
      | .Operator => rw [hty] at h; exact ih sc1 ts h
      | .Invalid => rw [hty] at h; exact ih sc1 ts h
      | .Eof =>
        rw [hty] at h
        cases h
        rfl
      | .Identifier =>
        rw [hty] at h
        match hct : createHighLevelToken t with
        | none => rw [hct] at h; cases h
        | some hts =>
          rw [hct] at h
          dsimp only at h
          match hrest : tokenizeFuel n sc1 with
          | none => rw [hrest] at h; cases h
          | some rest =>
            rw [hrest] at h
            cases h
            rw [createHighLevelToken_pairedOk hct rest]
            exact ih sc1 rest hrest

theorem BackableStringIterator.next_none_shape {s s1 : BackableStringIterator}
    (h : s.next = (none, s1)) :
    s1 = ⟨[], none, none⟩ ∧ s.prev = none ∧ s.iter = [] := by
  rw [BackableStringIterator.next] at h
  rcases s with ⟨iter, pc, prev⟩
  cases prev with
  | some p => cases h
  | none =>
    cases iter with
    | nil =>
      cases h
      exact ⟨rfl, rfl, rfl⟩
    | cons c0 rest => cases h

theorem BackableStringIterator.next_some_shape {s s1 : BackableStringIterator}
    {c : Char} (h : s.next = (some c, s1)) :
    s1.prev = none ∧ s1.prevCache = some c ∧
      ((s.prev = some c ∧ s1.iter = s.iter) ∨
        (s.prev = none ∧ s.iter = c :: s1.iter)) := by
  rw [BackableStringIterator.next] at h
  rcases s with ⟨iter, pc, prev⟩
  cases prev with
  | some p =>
    cases h
    exact ⟨rfl, rfl, Or.inl ⟨rfl, rfl⟩⟩
  | none =>
    cases iter with
    | nil => cases h
    | cons c0 rest =>
      cases h
      exact ⟨rfl, rfl, Or.inr ⟨rfl, rfl⟩⟩

theorem scanWhiteSpaceLoop_allWS :
    ∀ (n : Nat) (s : BackableStringIterator) (buffer : String), s.size < n →
      (∀ c ∈ s.iter, isWhiteSpace c = true) →
      (∀ p, s.prev = some p → isWhiteSpace p = true) →
      ∃ b, scanWhiteSpaceLoop buffer s =
        some (⟨.WhiteSpace, some b⟩, ⟨[], none, none⟩) := by
  intro n
  induction n with
  | zero => intro s buffer h; omega
  | succ n ih =>
    intro s buffer h hiter hprev
    match hn : s.next with
    | (none, s1) =>
      obtain ⟨rfl, -, -⟩ := BackableStringIterator.next_none_shape hn
      exact ⟨buffer, scanWhiteSpaceLoop_done buffer hn⟩
    | (some v, s1) =>
      have hlt := BackableStringIterator.next_some_size hn
      obtain ⟨hp1, -, hsh⟩ := BackableStringIterator.next_some_shape hn
      have hv : isWhiteSpace v = true := by
        rcases hsh with ⟨hpv, -⟩ | ⟨-, hiv⟩
        · exact hprev v hpv
        · exact hiter v (by rw [hiv]; exact List.mem_cons_self v s1.iter)
      have hiter1 : ∀ c ∈ s1.iter, isWhiteSpace c = true := by
        rcases hsh with ⟨-, hieq⟩ | ⟨-, hiv⟩
        · intro c hc; exact hiter c (hieq ▸ hc)
        · intro c hc; exact hiter c (by rw [hiv]; exact List.mem_cons_of_mem v hc)
      rw [scanWhiteSpaceLoop_cont buffer hn hv]
      exact ih s1 (buffer.push v) (by omega) hiter1
        (fun p hp => absurd (hp1 ▸ hp) (by simp))

/-- C1: for every input string, running the high-level tokenizer to
completion never fires the backtrackable stream's pushback assertions
(modelled as the `none` results): the assertion-failure branch is
unreachable for all inputs. -/
theorem tokenize_no_assertion_failure (s : String) :
    (tokenizeHighLevel s).isSome = true := by
  obtain ⟨ts, h⟩ := tokenizeHighLevel_total s
  rw [h]
  rfl

/-- C5: tokenization is total: for every input string the tokenizer
produces a finite semantic token list. -/
theorem tokenize_terminates (s : String) :
    ∃ ts, tokenizeHighLevel s = some ts :=
  tokenizeHighLevel_total s

/-- C2: the identifier-to-semantic-token mapping is exact and
case-sensitive: "r?" gives Directive then AssignReviewer, "r-" gives
Directive then RejectPullRequest, "r+" gives Directive then
AcceptPullRequest, and any other identifier not starting with "@"
(including "R+") yields exactly one Unknown token. -/
theorem directive_identifier_mapping :
    tokenizeHighLevel "r?" = some [⟨.Directive, none⟩, ⟨.AssignReviewer, none⟩] ∧
    tokenizeHighLevel "r-" = some [⟨.Directive, none⟩, ⟨.RejectPullRequest, none⟩] ∧
    tokenizeHighLevel "r+" = some [⟨.Directive, none⟩, ⟨.AcceptPullRequest, none⟩] ∧
    tokenizeHighLevel "R+" = some [⟨.Unknown, none⟩] ∧
    ∀ v : String, v ≠ "r?" → v ≠ "r-" → v ≠ "r+" → startsWithAtSign v = false →
      createHighLevelToken ⟨.Identifier, some v⟩ = some [⟨.Unknown, none⟩] := by
  refine ⟨by rw [tokenizeHighLevel_eq_fuel]; decide,
    by rw [tokenizeHighLevel_eq_fuel]; decide,
    by rw [tokenizeHighLevel_eq_fuel]; decide,
    by rw [tokenizeHighLevel_eq_fuel]; decide, ?_⟩
  intro v h1 h2 h3 h4
  rw [createHighLevelToken]
  dsimp only
  rw [if_neg h1, if_neg h2, if_neg h3, if_neg (by simp [h4])]

theorem directive_identifier_mapping_witness :
    createHighLevelToken ⟨.Identifier, some "R+"⟩ = some [⟨.Unknown, none⟩] :=
  directive_identifier_mapping.2.2.2.2 "R+" (by decide) (by decide) (by decide)
    (by decide)

/-- C3 counterexample: on the input "|x" the tokenizer does NOT yield a
single Unknown token, refuting the claim as stated. -/
theorem tokenize_pipe_x_not_unknown :
    tokenizeHighLevel "|x" ≠ some [⟨.Unknown, none⟩] := by
  rw [tokenizeHighLevel_eq_fuel]
  decide

/-- C3 (amended): on the input "|x" the tokenizer yields no semantic
token at all: "|" becomes an Invalid low-level token (dropped), and the
following "x" is consumed and discarded during operator scanning, so it
is never rescanned as an identifier. -/
theorem tokenize_pipe_x_empty : tokenizeHighLevel "|x" = some [] := by
  rw [tokenizeHighLevel_eq_fuel]
  decide

/-- C4: every identifier whose value starts with "@" becomes exactly
one UserName token carrying the identifier with the single leading "@"
removed (possibly the empty string). -/
theorem username_token_mapping :
    (∀ v : String, startsWithAtSign v = true →
      createHighLevelToken ⟨.Identifier, some v⟩ =
        some [⟨.UserName, some (stripAtSign v)⟩] ∧
      v.data = '@' :: (stripAtSign v).data) ∧
    tokenizeHighLevel "@alice" = some [⟨.UserName, some "alice"⟩] ∧
    tokenizeHighLevel "@" = some [⟨.UserName, some ""⟩] := by
  refine ⟨?_, by rw [tokenizeHighLevel_eq_fuel]; decide,
    by rw [tokenizeHighLevel_eq_fuel]; decide⟩
  intro v hsw
  have h1 : v ≠ "r?" := by rintro rfl; exact absurd hsw (by decide)
  have h2 : v ≠ "r-" := by rintro rfl; exact absurd hsw (by decide)
  have h3 : v ≠ "r+" := by rintro rfl; exact absurd hsw (by decide)
  constructor
  · rw [createHighLevelToken]
    dsimp only
    rw [if_neg h1, if_neg h2, if_neg h3, if_pos hsw]
  · rw [startsWithAtSign] at hsw
    rcases hd : v.data with - | ⟨c, rest⟩
    · rw [hd] at hsw
      cases hsw
    · rw [hd] at hsw
      dsimp only at hsw
      have hc : c = '@' := of_decide_eq_true hsw
      subst hc
      rw [stripAtSign, hd]
      rfl

theorem username_token_mapping_witness :
    createHighLevelToken ⟨.Identifier, some "@alice"⟩ =
      some [⟨.UserName, some (stripAtSign "@alice")⟩] ∧
    ("@alice" : String).data = '@' :: (stripAtSign "@alice").data :=
  username_token_mapping.1 "@alice" (by decide)

/-- C6: low-level WhiteSpace, Operator and Invalid tokens contribute no
semantic tokens; in particular every string made only of whitespace
characters tokenizes to the empty sequence. -/
theorem whitespace_only_tokenizes_empty (s : String)
    (h : ∀ c ∈ s.data, isWhiteSpace c = true) :
    tokenizeHighLevel s = some [] := by
  rw [tokenizeHighLevel, LowLevelScanner.fromString, BackableStringIterator.fromString]
  rcases hd : s.data with - | ⟨c, rest⟩
  · have hn : (⟨some ⟨[], none, none⟩, false⟩ : LowLevelScanner).next =
        some (some ⟨.Eof, none⟩, ⟨none, true⟩) := rfl
    rw [tokenizeHighLevelLoop_yield hn]
  · rw [hd] at h
    have hc : isWhiteSpace c = true := h c (List.mem_cons_self c rest)
    obtain ⟨b, hloop⟩ := scanWhiteSpaceLoop_allWS (rest.length + 2)
      ⟨rest, some c, none⟩ (String.singleton c)
      (by
        have hsz : (⟨rest, some c, none⟩ : BackableStringIterator).size = rest.length := rfl
        omega)
      (fun x hx => h x (List.mem_cons_of_mem c hx))
      (fun p hp => nomatch hp)
    have hscan : scan ⟨c :: rest, none, none⟩ =
        some (⟨.WhiteSpace, some b⟩, ⟨[], none, none⟩) := by
      rw [scan]
      dsimp only [BackableStringIterator.next]
      rw [if_pos hc, scanWhiteSpace]
      exact hloop
    have hn : (⟨some ⟨c :: rest, none, none⟩, false⟩ : LowLevelScanner).next =
        some (some ⟨.WhiteSpace, some b⟩, ⟨some ⟨[], none, none⟩, false⟩) := by
      rw [LowLevelScanner.next]
      rw [if_neg (fun hh => Bool.false_ne_true hh)]
      dsimp only
      rw [hscan]
      rfl
    rw [tokenizeHighLevelLoop_yield hn]
    dsimp only
    have hn2 : (⟨some ⟨[], none, none⟩, false⟩ : LowLevelScanner).next =
        some (some ⟨.Eof, none⟩, ⟨none, true⟩) := rfl
    rw [tokenizeHighLevelLoop_yield hn2]

theorem whitespace_only_tokenizes_empty_witness :
    tokenizeHighLevel "   \n\t  " = some [] :=
  whitespace_only_tokenizes_empty "   \n\t  " (by decide)

/-- C7: operator scanning policy: a fragment followed by the identical
fragment yields one Operator token with the doubled value; followed by
the other fragment, the lookahead is pushed back and Invalid is
emitted; at end of input Invalid is emitted; consequently "||", "&&"
and "|&" all tokenize to the empty sequence. -/
theorem operator_scanning_policy :
    (∀ (c : Char) (s s1 : BackableStringIterator), isOperatorFragment c = true →
      s.next = (none, s1) →
      scanOperator c s = some (⟨.Invalid, some (String.singleton c)⟩, s1)) ∧
    (∀ (c v : Char) (s s1 : BackableStringIterator), isOperatorFragment c = true →
      s.next = (some v, s1) → isOperatorFragment v = false →
      scanOperator c s = some (⟨.Invalid, some (String.singleton c)⟩, s1)) ∧
    (∀ (c v : Char) (s s1 : BackableStringIterator), isOperatorFragment c = true →
      s.next = (some v, s1) → isOperatorFragment v = true → c ≠ v →
      ∃ s2, s1.back = some s2 ∧
        scanOperator c s = some (⟨.Invalid, some (String.singleton c)⟩, s2)) ∧
    (∀ (c : Char) (s s1 : BackableStringIterator), isOperatorFragment c = true →
      s.next = (some c, s1) →
      scanOperator c s = some (⟨.Operator, some ((String.singleton c).push c)⟩, s1)) ∧
    tokenizeHighLevel "||" = some [] ∧
    tokenizeHighLevel "&&" = some [] ∧
    tokenizeHighLevel "|&" = some [] := by
  refine ⟨?_, ?_, ?_, ?_, by rw [tokenizeHighLevel_eq_fuel]; decide,
    by rw [tokenizeHighLevel_eq_fuel]; decide,
    by rw [tokenizeHighLevel_eq_fuel]; decide⟩
  · intro c s s1 hc hn
    rw [scanOperator, hn]
  · intro c v s s1 hc hn hv
    rw [scanOperator, hn]
    dsimp only
    rw [if_pos hv]
  · intro c v s s1 hc hn hv hne
    have hpc := BackableStringIterator.next_some_prevCache hn
    refine ⟨⟨s1.iter, none, some v⟩, by rw [BackableStringIterator.back, hpc], ?_⟩
    rw [scanOperator, hn]
    dsimp only
    rw [if_neg (fun hh => by rw [hv] at hh; cases hh), if_pos hne,
      BackableStringIterator.back, hpc]
  · intro c s s1 hc hn
    rw [scanOperator, hn]
    dsimp only
    rw [if_neg (fun hh => by rw [hc] at hh; cases hh),
      if_neg (fun hh => hh rfl)]

theorem operator_scanning_policy_witness :
    scanOperator '|' ⟨['|'], none, none⟩ =
      some (⟨.Operator, some ((String.singleton '|').push '|')⟩,
        ⟨[], some '|', none⟩) :=
  operator_scanning_policy.2.2.2.1 '|' ⟨['|'], none, none⟩ ⟨[], some '|', none⟩
    (by decide) (by decide)

/-- C8: once the scanner has produced an Eof token it is permanently
closed: the closing call nulls the stream and sets the flag, and every
call on a closed scanner reports done with no token and the state
unchanged (so no further read of the stream is ever attempted). -/
theorem scanner_closed_after_eof :
    (∀ (sc sc1 : LowLevelScanner) (t : LowLevelToken),
      LowLevelScanner.next sc = some (some t, sc1) →
      t.type = LowLevelTokenType.Eof →
      sc1.hasReachedEof = true ∧ sc1.sourceIter = none) ∧
    (∀ sc : LowLevelScanner, sc.hasReachedEof = true →
      LowLevelScanner.next sc = some (none, sc)) := by
  constructor
  · intro sc sc1 t h ht
    rw [LowLevelScanner.next] at h
    by_cases he : sc.hasReachedEof
    · rw [if_pos he] at h
      cases h
    · rw [if_neg he] at h
      match hit : sc.sourceIter with
      | none => rw [hit] at h; cases h
      | some it =>
        rw [hit] at h
        dsimp only at h
        match heq : scan it with
        | none => rw [heq] at h; cases h
        | some (u, it1) =>
          rw [heq] at h
          dsimp only at h
          by_cases hT : u.type = LowLevelTokenType.Eof
          · rw [if_pos hT] at h
            cases h
            exact ⟨rfl, rfl⟩
          · rw [if_neg hT] at h
            cases h
            exact absurd ht hT
  · intro sc he
    rw [LowLevelScanner.next, if_pos he]

theorem scanner_closed_after_eof_witness :
    ((⟨none, true⟩ : LowLevelScanner).hasReachedEof = true ∧
      (⟨none, true⟩ : LowLevelScanner).sourceIter = none) ∧
    LowLevelScanner.next ⟨none, true⟩ = some (none, ⟨none, true⟩) :=
  ⟨scanner_closed_after_eof.1 (LowLevelScanner.fromString "") ⟨none, true⟩
      ⟨.Eof, none⟩ (by decide) (by decide),
    scanner_closed_after_eof.2 ⟨none, true⟩ (by decide)⟩

/-- C9: the backtrackable stream contract: back() before any next(),
back() twice in a row, or back() after an exhausted next() all fire the
assertion (`none`); after a valid back() the very next next() replays
the buffered character exactly once without consuming from the
underlying string and restores the pre-back state. -/
theorem pushback_contract :
    (∀ str : String, (BackableStringIterator.fromString str).back = none) ∧
    (∀ (s s1 : BackableStringIterator) (c : Char), s.next = (some c, s1) →
      ∀ s2, s1.back = some s2 → s2.back = none) ∧
    (∀ (s s1 : BackableStringIterator), s.next = (none, s1) →
      s1.back = none) ∧
    (∀ (s s1 : BackableStringIterator) (c : Char), s.next = (some c, s1) →
      ∃ s2, s1.back = some s2 ∧ s2.iter = s1.iter ∧ s2.next = (some c, s1)) := by
  refine ⟨fun str => rfl, ?_, ?_, ?_⟩
  · intro s s1 c hn s2 hb
    have hpc := BackableStringIterator.next_some_prevCache hn
    rw [BackableStringIterator.back, hpc] at hb
    cases hb
    rfl
  · intro s s1 hn
    obtain ⟨rfl, -, -⟩ := BackableStringIterator.next_none_shape hn
    rfl
  · intro s s1 c hn
    obtain ⟨hp, hpc, -⟩ := BackableStringIterator.next_some_shape hn
    refine ⟨⟨s1.iter, none, some c⟩, by rw [BackableStringIterator.back, hpc], rfl, ?_⟩
    rw [BackableStringIterator.next]
    dsimp only
    rcases s1 with ⟨iter1, pc1, p1⟩
    dsimp only at hp hpc
    rw [hp, hpc]

theorem pushback_contract_witness :
    ∃ s2, (⟨[], some 'a', none⟩ : BackableStringIterator).back = some s2 ∧
      s2.iter = (⟨[], some 'a', none⟩ : BackableStringIterator).iter ∧
      s2.next = (some 'a', ⟨[], some 'a', none⟩) :=
  pushback_contract.2.2.2 ⟨['a'], none, none⟩ ⟨[], some 'a', none⟩ 'a' (by decide)

/-- C10: every produced semantic token sequence satisfies the pairing
invariant: each Directive is immediately followed by exactly one
accept/reject/assign marker, each such marker is immediately preceded
by a Directive, and no Eof token is ever emitted. -/
theorem pairing_invariant (s : String) (ts : List HighLevelToken)
    (h : tokenizeHighLevel s = some ts) : pairedOk ts = true := by
  rw [tokenizeHighLevel_eq_fuel] at h
  exact tokenizeFuel_pairedOk _ _ _ h

theorem pairing_invariant_witness :
    pairedOk [⟨.Directive, none⟩, ⟨.AcceptPullRequest, none⟩,
      ⟨.UserName, some "bob"⟩] = true :=
  pairing_invariant "r+ @bob"
    [⟨.Directive, none⟩, ⟨.AcceptPullRequest, none⟩, ⟨.UserName, some "bob"⟩]
    (by rw [tokenizeHighLevel_eq_fuel]; decide)
